import Mathlib

/-!
Verification development for the velecs-common Identity & Registry subsystem:
the 128-bit `Uuid` value type (`src/include/velecs/common/Uuid.hpp`,
`src/src/Uuid.cpp`) and the dual-key `NameUuidRegistry`
(`src/include/velecs/common/NameUuidRegistry.hpp`).

A `Uuid` is modelled as its 16-byte representation (each byte a `Nat < 256`).
The parts of the implementation that live in external libraries
(`uuids::uuid::from_string` / `uuids::to_string` / the stduuid generators,
`std::mt19937`, `std::hash<std::string>`) are modelled from the specification,
as flagged in the corresponding doc comments.
-/

namespace VelecsCommon

/-- A 128-bit identifier, represented as its sixteen bytes
(embedding of `velecs::common::Uuid`, whose state is a `uuids::uuid`,
i.e. a 16-byte array). -/
structure Uuid where
  bytes : List Nat
deriving DecidableEq, Repr

/-- Well-formedness of the byte representation: exactly 16 bytes,
each an 8-bit value. Every `uuids::uuid` satisfies this by construction. -/
def Uuid.WF (u : Uuid) : Prop := u.bytes.length = 16 ∧ ∀ b ∈ u.bytes, b < 256

instance (u : Uuid) : Decidable u.WF := by unfold Uuid.WF; infer_instance

/-- Embedding of `Uuid::INVALID = Uuid(uuids::uuid{})`: the all-zero value
(`src/src/Uuid.cpp` line 17). -/
def Uuid.INVALID : Uuid := ⟨[0, 0, 0, 0, 0, 0, 0, 0, 0, 0, 0, 0, 0, 0, 0, 0]⟩

/-- Embedding of `Uuid::IsValid()` (`src/include/velecs/common/Uuid.hpp`
lines 110-113): `*this != INVALID`. -/
def Uuid.isValid (u : Uuid) : Bool := !(decide (u = Uuid.INVALID))

/-- The 16 bytes read as one natural number, most significant byte first.
This is the "128-bit value" view used by the spec when it speaks of the
low-order 32 bits of an otherwise-zero value. -/
def Uuid.toNat (u : Uuid) : Nat := u.bytes.foldl (fun a b => 256 * a + b) 0

/-- Value of a hexadecimal digit character, accepting upper or lower case
(the spec: parsing is case-insensitive); `none` on a non-hex character. -/
def hexVal (c : Char) : Option Nat :=
  if '0' ≤ c ∧ c ≤ '9' then some (c.toNat - '0'.toNat)
  else if 'a' ≤ c ∧ c ≤ 'f' then some (c.toNat - 'a'.toNat + 10)
  else if 'A' ≤ c ∧ c ≤ 'F' then some (c.toNat - 'A'.toNat + 10)
  else none

/-- Whether a character is a hexadecimal digit. -/
def isHexDigit (c : Char) : Bool := (hexVal c).isSome

/-- The two lowercase hex characters of one byte, high nibble first
(the canonical text form is lowercase hex). -/
def byteHex (b : Nat) : List Char := [Nat.digitChar (b / 16), Nat.digitChar (b % 16)]

/-- Lowercase hex characters of a list of bytes. -/
def bytesHex : List Nat → List Char
  | [] => []
  | b :: bs => byteHex b ++ bytesHex bs

/-- Modelled from the spec: `uuids::to_string` lives in the external stduuid
library, not under `src/`. The spec fixes the canonical text form: lowercase
hexadecimal, grouped 8-4-4-4-12 digits separated by hyphens. This formats the
16 bytes accordingly (groups of 4, 2, 2, 2 and 6 bytes). Embedding of
`Uuid::ToString()` (`src/include/velecs/common/Uuid.hpp` lines 115-117). -/
def Uuid.toText (u : Uuid) : String :=
  ⟨bytesHex (u.bytes.take 4) ++ '-' ::
   (bytesHex ((u.bytes.drop 4).take 2) ++ '-' ::
    (bytesHex ((u.bytes.drop 6).take 2) ++ '-' ::
     (bytesHex ((u.bytes.drop 8).take 2) ++ '-' ::
      bytesHex (u.bytes.drop 10))))⟩

/-- Parse `n` bytes, i.e. `2*n` hex characters, from the front of a character
list; on success return the bytes and the remaining characters. -/
def parseBytes : Nat → List Char → Option (List Nat × List Char)
  | 0, cs => some ([], cs)
  | n + 1, c1 :: c2 :: cs =>
    match hexVal c1, hexVal c2, parseBytes n cs with
    | some hi, some lo, some (bs, rest) => some ((16 * hi + lo) :: bs, rest)
    | _, _, _ => none
  | _ + 1, [] => none
  | _ + 1, [_] => none

/-- Modelled from the spec: `uuids::uuid::from_string` lives in the external
stduuid library, not under `src/`. The spec: parsing accepts the canonical
8-4-4-4-12 hyphenated hexadecimal form, case-insensitively, and yields
"no value" on any malformed input (wrong length, invalid hex, wrong hyphen
placement). This parses exactly that shape: 4 bytes, a hyphen, 2 bytes, a
hyphen, 2 bytes, a hyphen, 2 bytes, a hyphen, 6 bytes, end of input. -/
def fromTextChars (cs : List Char) : Option (List Nat) :=
  match parseBytes 4 cs with
  | some (g1, '-' :: r1) =>
    match parseBytes 2 r1 with
    | some (g2, '-' :: r2) =>
      match parseBytes 2 r2 with
      | some (g3, '-' :: r3) =>
        match parseBytes 2 r3 with
        | some (g4, '-' :: r4) =>
          match parseBytes 6 r4 with
          | some (g5, []) => some (g1 ++ (g2 ++ (g3 ++ (g4 ++ g5))))
          | _ => none
        | _ => none
      | _ => none
    | _ => none
  | _ => none

/-- Embedding of `Uuid::FromString` (`src/src/Uuid.cpp` lines 104-112):
delegates to the (spec-modelled) library parser and wraps a successful result;
a failed parse is an empty optional, never an error. -/
def Uuid.fromText (s : String) : Option Uuid := (fromTextChars s.data).map Uuid.mk

/-- Consume exactly `n` hexadecimal characters; return the rest. -/
def hexRun : Nat → List Char → Option (List Char)
  | 0, cs => some cs
  | n + 1, c :: cs => if isHexDigit c then hexRun n cs else none
  | _ + 1, [] => none

/-- The canonical 8-4-4-4-12 hyphenated hexadecimal shape of the spec:
8 hex digits, a hyphen, 4 hex digits, a hyphen, 4 hex digits, a hyphen,
4 hex digits, a hyphen, 12 hex digits, and nothing else. -/
def canonicalShape (cs : List Char) : Bool :=
  match hexRun 8 cs with
  | some ('-' :: r1) =>
    match hexRun 4 r1 with
    | some ('-' :: r2) =>
      match hexRun 4 r2 with
      | some ('-' :: r3) =>
        match hexRun 4 r3 with
        | some ('-' :: r4) =>
          match hexRun 12 r4 with
          | some [] => true
          | _ => false
        | _ => false
      | _ => false
    | _ => false
  | _ => false

/-! ### Identifier generation (`src/src/Uuid.cpp`) -/

/-- Embedding of the body of the loop in `Uuid::GenerateSequential`
(`src/src/Uuid.cpp` lines 41-61): the 32-bit counter value `id` is written
big-endian into the last four bytes (`bytes[15 - i] = (id >> (i*8)) & 0xFF`
for `i = 0..3`), all other bytes zero. Shifts and masks are embedded as
division and remainder. -/
def mkSeqUuid (id : Nat) : Uuid :=
  ⟨[0, 0, 0, 0, 0, 0, 0, 0, 0, 0, 0, 0,
    id / 16777216 % 256, id / 65536 % 256, id / 256 % 256, id % 256]⟩

/-- Embedding of the process-wide counter of `Uuid::GenerateSequential`:
`static std::atomic<uint32_t> counter{1}` after `n` completed calls.
`fetch_add(1)` on a `uint32_t` wraps around modulo `2^32`. -/
def seqCounter : Nat → Nat
  | 0 => 1
  | n + 1 => (seqCounter n + 1) % 4294967296

/-- The result of call number `n` (0-indexed) to `Uuid::GenerateSequential`
within one process: `fetch_add` returns the counter value before the
increment. -/
def generateSequentialAt (n : Nat) : Uuid := mkSeqUuid (seqCounter n)

/-- Modelled from the spec: `std::mt19937` and the value drawn from it through
`uuids::uuid_random_generator`'s `uniform_int_distribution` are external
(C++ standard library / stduuid), not under `src/`. The spec guarantees only
that the engine is a reproducible pseudo-random engine fully determined by its
32-bit seed; we model its `i`-th 32-bit draw as a fixed deterministic mixing
function of the seed. -/
def engineWord (seed i : Nat) : Nat :=
  (1812433253 * (seed % 4294967296) + 2654435769 * i + 1) % 4294967296

/-- Four bytes of one 32-bit word, least significant byte first (the stduuid
generator copies each 32-bit draw into four consecutive bytes). -/
def wordBytes (w : Nat) : List Nat :=
  [w % 256, w / 256 % 256, w / 65536 % 256, w / 16777216 % 256]

/-- Modelled from the spec: force the fixed version and variant bits of a
random-format (version 4) identifier onto 16 bytes: byte 6 gets high nibble
`4`, byte 8 gets top bits `10`. -/
def setVersion4Variant (bs : List Nat) : List Nat :=
  (bs.set 6 (64 + bs.getD 6 0 % 16)).set 8 (128 + bs.getD 8 0 % 64)

/-- Embedding of `Uuid::GenerateFromSeed` (`src/src/Uuid.cpp` lines 63-73):
seed a fresh engine with the 32-bit `seed`, draw a random-format identifier
from it. No state outside the function body is read or written. The engine and
the byte-filling are spec-modelled (see `engineWord`). -/
def generateFromSeed (seed : Nat) : Uuid :=
  ⟨setVersion4Variant
    (wordBytes (engineWord seed 0) ++ (wordBytes (engineWord seed 1) ++
     (wordBytes (engineWord seed 2) ++ wordBytes (engineWord seed 3))))⟩

/-- The fixed namespace identifier `76656c65-6373-4000-8000-000000000000`
owned by this subsystem (`src/src/Uuid.cpp` line 80), as bytes. -/
def velecsNamespaceBytes : List Nat :=
  [118, 101, 108, 101, 99, 115, 64, 0, 128, 0, 0, 0, 0, 0, 0, 0]

/-- Big-endian 16-byte representation of a natural number modulo `2^128`. -/
def natBytes16 (n : Nat) : List Nat :=
  (List.range 16).map (fun i => n / 256 ^ (15 - i) % 256)

/-- Modelled from the spec: `uuids::uuid_name_generator` (the SHA-1-based
version-5 name derivation) is external stduuid code, not under `src/`. The
spec guarantees only that it is a fixed deterministic digest of the namespace
identifier and the input text; we model it as a deterministic 128-bit fold
over the namespace bytes followed by the text's characters. -/
def nameDigest (ns : List Nat) (s : String) : Nat :=
  (ns ++ s.data.map Char.toNat).foldl
    (fun h b => (h * 340282366920938463463374607431768211297 + b + 1) %
      340282366920938463463374607431768211456)
    144066263297769815596495629667062367629

/-- Embedding of `Uuid::GenerateFromString` (`src/src/Uuid.cpp` lines 75-89):
name-based derivation of `seed` under the fixed velecs namespace. The digest
itself is spec-modelled (see `nameDigest`); the result depends only on the
argument text. -/
def generateFromString (seed : String) : Uuid :=
  ⟨natBytes16 (nameDigest velecsNamespaceBytes seed)⟩

/-- Modelled from the spec: `std::hash<std::string>` is external C++ standard
library code, not under `src/`; the spec describes it as a general-purpose
(non-cryptographic) string hash producing a `size_t`. Modelled as the 64-bit
FNV-1a hash of the text's characters. -/
def stdHashString (s : String) : Nat :=
  s.data.foldl
    (fun h c => ((h ^^^ c.toNat) * 1099511628211) % 18446744073709551616)
    14695981039346656037

/-- Embedding of `Uuid::GenerateFromStringHash` (`src/src/Uuid.cpp` lines
91-102), step for step: hash the string (`std::hash<std::string>`), truncate
the hash to 32 bits (`static_cast<uint32_t>`), and feed `GenerateFromSeed`. -/
def generateFromStringHash (seed : String) : Uuid :=
  let hashValue := stdHashString seed
  let numericSeed := hashValue % 4294967296
  generateFromSeed numericSeed

/-! ### Dual-key registry (`src/include/velecs/common/NameUuidRegistry.hpp`)

`std::unordered_map` is embedded as an association list whose keys are unique
in every reachable state; `try_emplace`, `operator[]`-assignment, `find` and
`erase` are embedded as the corresponding association-list operations. The
nondeterministic `Uuid::GenerateRandom()` call at the top of `Add`/`EmplaceAs`
is embedded by passing the generated identifier as an explicit argument, and a
possibly-failing item construction / item storage step by an `Option` item and
a failure flag. -/

/-- `find` on an `unordered_map`: first value bound to the key, if any. -/
def lookupKey {κ α : Type} [DecidableEq κ] : List (κ × α) → κ → Option α
  | [], _ => none
  | (k1, v) :: rest, k => if k1 = k then some v else lookupKey rest k

/-- `try_emplace`: if the key is absent, insert the binding and report `true`;
otherwise leave the map unchanged and report `false`. -/
def tryEmplace {κ α : Type} [DecidableEq κ] (m : List (κ × α)) (k : κ) (v : α) :
    List (κ × α) × Bool :=
  match lookupKey m k with
  | some _ => (m, false)
  | none => (m ++ [(k, v)], true)

/-- `erase(key)`: remove the first binding of the key (the only one, since
`unordered_map` keys are unique). -/
def eraseKey {κ α : Type} [DecidableEq κ] : List (κ × α) → κ → List (κ × α)
  | [], _ => []
  | (k1, v) :: rest, k => if k1 = k then rest else (k1, v) :: eraseKey rest k

/-- `map[key] = value`: overwrite the existing binding, or insert a new one. -/
def setVal {κ α : Type} [DecidableEq κ] : List (κ × α) → κ → α → List (κ × α)
  | [], k, v => [(k, v)]
  | (k1, v1) :: rest, k, v =>
    if k1 = k then (k1, v) :: rest else (k1, v1) :: setVal rest k v

/-- The reverse scan of `_nameToUuid` for a given identifier value: the first
name bound to it, if any (the loop of `TryGetName` / `Remove(uuid)`). -/
def findNameByUuid : List (String × Uuid) → Uuid → Option String
  | [], _ => none
  | (n, u1) :: rest, u => if u1 = u then some n else findNameByUuid rest u

/-- Erase the first binding whose value is the given identifier (the erase
inside the loop of `Remove(uuid)`). -/
def eraseFirstByVal : List (String × Uuid) → Uuid → List (String × Uuid)
  | [], _ => []
  | (n, u1) :: rest, u => if u1 = u then rest else (n, u1) :: eraseFirstByVal rest u

/-- State of a `NameUuidRegistry<T>`: the item index `_items` and the name
index `_nameToUuid` (`src/include/velecs/common/NameUuidRegistry.hpp`
lines 304-311). -/
structure Registry (T : Type) where
  items : List (Uuid × T)
  nameToUuid : List (String × Uuid)
deriving Repr

/-- A default-constructed registry: both indices empty. -/
def Registry.empty (T : Type) : Registry T := ⟨[], []⟩

/-- Observable outcome of an `Add`/`Emplace`/`EmplaceAs` call. -/
inductive RegOutcome where
  /-- Normal return carrying the assigned identifier. -/
  | ok (uuid : Uuid)
  /-- The `std::runtime_error` thrown for an already-existing name. -/
  | dupName
  /-- A propagated failure of the item-construction or item-storage step. -/
  | opFail
deriving DecidableEq, Repr

/-- Embedding of `NameUuidRegistry::Add` (`NameUuidRegistry.hpp` lines
72-92). `uuid` is the value returned by `Uuid::GenerateRandom()`;
`storeFails` tells whether the item-storage step `_items[uuid] = move(item)`
fails (throws). On a duplicate name the `runtime_error` is thrown before any
mutation; on a storage failure the `catch` block erases the just-inserted
name binding and rethrows. -/
def Registry.add {T : Type} (r : Registry T) (name : String) (uuid : Uuid)
    (item : T) (storeFails : Bool) : Registry T × RegOutcome :=
  match tryEmplace r.nameToUuid name uuid with
  | (m, false) => (⟨r.items, m⟩, RegOutcome.dupName)
  | (m, true) =>
    if storeFails then (⟨r.items, eraseKey m name⟩, RegOutcome.opFail)
    else (⟨setVal r.items uuid item, m⟩, RegOutcome.ok uuid)

/-- Embedding of `NameUuidRegistry::EmplaceAs` (`NameUuidRegistry.hpp` lines
101-126). `uuid` is the value returned by `Uuid::GenerateRandom()`; `ctor` is
the result of `make_unique<U>(args...)` (`none` when the constructor throws);
`storeFails` tells whether the subsequent `_items.try_emplace` itself throws.
Both failures run the `catch` block: erase the just-inserted name binding and
rethrow. On the success path the code ignores `itemInserted`, so an already
present identifier leaves the item index unchanged while the call still
returns `ok`. -/
def Registry.emplaceAs {T : Type} (r : Registry T) (name : String) (uuid : Uuid)
    (ctor : Option T) (storeFails : Bool) : Registry T × RegOutcome :=
  match tryEmplace r.nameToUuid name uuid with
  | (m, false) => (⟨r.items, m⟩, RegOutcome.dupName)
  | (m, true) =>
    match ctor with
    | none => (⟨r.items, eraseKey m name⟩, RegOutcome.opFail)
    | some item =>
      if storeFails then (⟨r.items, eraseKey m name⟩, RegOutcome.opFail)
      else (⟨(tryEmplace r.items uuid item).1, m⟩, RegOutcome.ok uuid)

/-- Embedding of `NameUuidRegistry::Emplace` (`NameUuidRegistry.hpp` lines
134-138): delegates to `EmplaceAs<T>`. -/
def Registry.emplace {T : Type} (r : Registry T) (name : String) (uuid : Uuid)
    (ctor : Option T) (storeFails : Bool) : Registry T × RegOutcome :=
  r.emplaceAs name uuid ctor storeFails

/-- Embedding of `TryGetRef(const Uuid&, T*&)` (`NameUuidRegistry.hpp` lines
144-153): direct lookup in the item index. -/
def Registry.tryGetById {T : Type} (r : Registry T) (uuid : Uuid) : Option T :=
  lookupKey r.items uuid

/-- Embedding of `TryGetUuid` (`NameUuidRegistry.hpp` lines 214-223): lookup
in the name index. -/
def Registry.tryGetUuid {T : Type} (r : Registry T) (name : String) : Option Uuid :=
  lookupKey r.nameToUuid name

/-- Embedding of `TryGetRef(const std::string&, T*&)` (`NameUuidRegistry.hpp`
lines 184-192): name-index lookup, then item-index lookup. -/
def Registry.tryGetByName {T : Type} (r : Registry T) (name : String) : Option T :=
  match lookupKey r.nameToUuid name with
  | some uuid => lookupKey r.items uuid
  | none => none

/-- Embedding of `TryGetName` (`NameUuidRegistry.hpp` lines 230-241): reverse
scan of the name index. -/
def Registry.tryGetName {T : Type} (r : Registry T) (uuid : Uuid) : Option String :=
  findNameByUuid r.nameToUuid uuid

/-- Embedding of `Remove(const Uuid&)` (`NameUuidRegistry.hpp` lines 246-266):
if the item exists, erase the first name binding carrying the identifier and
the item itself, and return `true`; otherwise return `false`. -/
def Registry.removeById {T : Type} (r : Registry T) (uuid : Uuid) :
    Registry T × Bool :=
  match lookupKey r.items uuid with
  | some _ => (⟨eraseKey r.items uuid, eraseFirstByVal r.nameToUuid uuid⟩, true)
  | none => (r, false)

/-- Embedding of `Remove(const std::string&)` (`NameUuidRegistry.hpp` lines
271-282): if the name exists, erase the name binding and the item stored under
its identifier, and return `true`; otherwise return `false`. -/
def Registry.removeByName {T : Type} (r : Registry T) (name : String) :
    Registry T × Bool :=
  match lookupKey r.nameToUuid name with
  | some uuid => (⟨eraseKey r.items uuid, eraseKey r.nameToUuid name⟩, true)
  | none => (r, false)

/-- Embedding of `Clear` (`NameUuidRegistry.hpp` lines 285-289). -/
def Registry.clear {T : Type} (_r : Registry T) : Registry T := ⟨[], []⟩

/-- Embedding of `Size` (`NameUuidRegistry.hpp` line 293): number of entries
of the item index. -/
def Registry.size {T : Type} (r : Registry T) : Nat := r.items.length

/-- Embedding of `Empty` (`NameUuidRegistry.hpp` line 297). -/
def Registry.isEmpty {T : Type} (r : Registry T) : Bool := r.items.isEmpty

/-- The registry bijection invariant in the words of the claim (I1/I2): no two
live entries share a name; every identifier present in the name index has
exactly one corresponding entry in the item index; every identifier in the
item index has exactly one name mapping to it. -/
def Registry.Bijection {T : Type} (r : Registry T) : Prop :=
  (∀ p ∈ r.nameToUuid, (r.nameToUuid.filter (fun q => q.1 = p.1)).length = 1) ∧
  (∀ p ∈ r.nameToUuid, (r.items.filter (fun q => q.1 = p.2)).length = 1) ∧
  (∀ q ∈ r.items, (r.nameToUuid.filter (fun p => p.2 = q.1)).length = 1)

instance {T : Type} (r : Registry T) : Decidable r.Bijection := by
  unfold Registry.Bijection; infer_instance

/-- Helper invariant implying `Registry.Bijection`: both indices have unique
keys, the identifiers bound in the name index are pairwise distinct, and they
are exactly the keys of the item index. -/
def Registry.Consistent {T : Type} (r : Registry T) : Prop :=
  (r.nameToUuid.map Prod.fst).Nodup ∧
  (r.nameToUuid.map Prod.snd).Nodup ∧
  (r.items.map Prod.fst).Nodup ∧
  (∀ u ∈ r.nameToUuid.map Prod.snd, u ∈ r.items.map Prod.fst) ∧
  (∀ u ∈ r.items.map Prod.fst, u ∈ r.nameToUuid.map Prod.snd)

instance {T : Type} (r : Registry T) : Decidable r.Consistent := by
  unfold Registry.Consistent; infer_instance

/-- Registry states reachable from the empty registry by `Add`, `Emplace`/
`EmplaceAs` (with arbitrary success, duplicate-name and failure paths),
`Remove` by name or identifier, and `Clear`, under the restriction that every
identifier handed to `Add`/`EmplaceAs` is fresh: not live in the item index. -/
inductive ReachableFresh {T : Type} : Registry T → Prop where
  | empty : ReachableFresh (Registry.empty T)
  | add (r : Registry T) (name : String) (uuid : Uuid) (item : T)
      (storeFails : Bool) (hr : ReachableFresh r)
      (hfresh : lookupKey r.items uuid = none) :
      ReachableFresh (r.add name uuid item storeFails).1
  | emplaceAs (r : Registry T) (name : String) (uuid : Uuid) (ctor : Option T)
      (storeFails : Bool) (hr : ReachableFresh r)
      (hfresh : lookupKey r.items uuid = none) :
      ReachableFresh (r.emplaceAs name uuid ctor storeFails).1
  | removeById (r : Registry T) (uuid : Uuid) (hr : ReachableFresh r) :
      ReachableFresh (r.removeById uuid).1
  | removeByName (r : Registry T) (name : String) (hr : ReachableFresh r) :
      ReachableFresh (r.removeByName name).1
  | clear (r : Registry T) (hr : ReachableFresh r) :
      ReachableFresh r.clear

/-! ### Concrete test inputs used by witnesses and counterexamples -/

/-- A fixed identifier used as a concrete test input. -/
def uA : Uuid := ⟨[0, 0, 0, 0, 0, 0, 0, 0, 0, 0, 0, 0, 0, 0, 0, 1]⟩

/-- A second fixed identifier used as a concrete test input. -/
def uB : Uuid := ⟨[0, 0, 0, 0, 0, 0, 0, 0, 0, 0, 0, 0, 0, 0, 0, 2]⟩

/-- A concrete one-entry registry used as a test input. -/
def regOne : Registry Nat := ⟨[(uA, 5)], [("Player", uA)]⟩

/-! ### Lemmas about hexadecimal text -/

/-- `Nat.digitChar` of a nibble is parsed back by `hexVal`. -/
theorem hexVal_digitChar : ∀ m < 16, hexVal (Nat.digitChar m) = some m := by decide

/-- Parsing the hex image of a byte list recovers the bytes and leaves the
rest of the input untouched. -/
theorem parseBytes_bytesHex (bs : List Nat) (rest : List Char)
    (hb : ∀ b ∈ bs, b < 256) :
    parseBytes bs.length (bytesHex bs ++ rest) = some (bs, rest) := by
  induction bs with
  | nil => simp [bytesHex, parseBytes]
  | cons b bs ih =>
    have hb0 : b < 256 := hb b (List.mem_cons_self b bs)
    have ihr := ih (fun x hx => hb x (List.mem_cons_of_mem _ hx))
    have h1 : hexVal (Nat.digitChar (b / 16)) = some (b / 16) :=
      hexVal_digitChar _ (by omega)
    have h2 : hexVal (Nat.digitChar (b % 16)) = some (b % 16) :=
      hexVal_digitChar _ (by omega)
    show parseBytes (bs.length + 1)
      ((byteHex b ++ bytesHex bs) ++ rest) = some (b :: bs, rest)
    simp only [byteHex, List.cons_append, List.nil_append, List.append_assoc,
      parseBytes, h1, h2]
    simp only [List.append_eq, List.nil_append]
    rw [ihr]
    simp [Nat.div_add_mod]

/-- A successful `parseBytes n` run means the input started with `2*n`
hexadecimal characters followed by the returned rest. -/
theorem hexRun_of_parseBytes :
    ∀ (n : Nat) (cs : List Char) (bs : List Nat) (rest : List Char),
      parseBytes n cs = some (bs, rest) → hexRun (2 * n) cs = some rest := by
  intro n
  induction n with
  | zero =>
    intro cs bs rest h
    simp [parseBytes] at h
    simp [hexRun, h.2]
  | succ n ih =>
    intro cs bs rest h
    match cs with
    | [] => simp [parseBytes] at h
    | [c] => simp [parseBytes] at h
    | c1 :: c2 :: cs2 =>
      have h2n : 2 * (n + 1) = 2 * n + 1 + 1 := by omega
      rw [h2n]
      simp only [parseBytes] at h
      cases hv1 : hexVal c1 with
      | none => rw [hv1] at h; simp at h
      | some d1 =>
        cases hv2 : hexVal c2 with
        | none => rw [hv1, hv2] at h; simp at h
        | some d2 =>
          cases hp : parseBytes n cs2 with
          | none => rw [hv1, hv2, hp] at h; simp at h
          | some p =>
            obtain ⟨bs2, rest2⟩ := p
            rw [hv1, hv2, hp] at h
            simp at h
            simp only [hexRun, isHexDigit, hv1, hv2, Option.isSome_some, if_true]
            rw [← h.2]
            exact ih cs2 bs2 rest2 hp

/-- The character list of a literal string. -/
theorem data_mk (cs : List Char) : (String.mk cs).data = cs := rfl

/-- Parsing the canonical text of sixteen well-formed bytes recovers them. -/
theorem fromTextChars_roundtrip (l : List Nat) (hlen : l.length = 16)
    (hb : ∀ b ∈ l, b < 256) :
    fromTextChars (bytesHex (l.take 4) ++ '-' ::
      (bytesHex ((l.drop 4).take 2) ++ '-' ::
       (bytesHex ((l.drop 6).take 2) ++ '-' ::
        (bytesHex ((l.drop 8).take 2) ++ '-' ::
         bytesHex (l.drop 10))))) = some l := by
  have hb1 : ∀ b ∈ l.take 4, b < 256 := fun b h => hb b (List.take_subset _ _ h)
  have hb2 : ∀ b ∈ (l.drop 4).take 2, b < 256 :=
    fun b h => hb b (List.drop_subset _ _ (List.take_subset _ _ h))
  have hb3 : ∀ b ∈ (l.drop 6).take 2, b < 256 :=
    fun b h => hb b (List.drop_subset _ _ (List.take_subset _ _ h))
  have hb4 : ∀ b ∈ (l.drop 8).take 2, b < 256 :=
    fun b h => hb b (List.drop_subset _ _ (List.take_subset _ _ h))
  have hb5 : ∀ b ∈ l.drop 10, b < 256 := fun b h => hb b (List.drop_subset _ _ h)
  have p1 := parseBytes_bytesHex (l.take 4)
    ('-' :: (bytesHex ((l.drop 4).take 2) ++ '-' ::
      (bytesHex ((l.drop 6).take 2) ++ '-' ::
       (bytesHex ((l.drop 8).take 2) ++ '-' :: bytesHex (l.drop 10))))) hb1
  have p2 := parseBytes_bytesHex ((l.drop 4).take 2)
    ('-' :: (bytesHex ((l.drop 6).take 2) ++ '-' ::
      (bytesHex ((l.drop 8).take 2) ++ '-' :: bytesHex (l.drop 10)))) hb2
  have p3 := parseBytes_bytesHex ((l.drop 6).take 2)
    ('-' :: (bytesHex ((l.drop 8).take 2) ++ '-' :: bytesHex (l.drop 10))) hb3
  have p4 := parseBytes_bytesHex ((l.drop 8).take 2)
    ('-' :: bytesHex (l.drop 10)) hb4
  have p5 := parseBytes_bytesHex (l.drop 10) [] hb5
  rw [show (l.take 4).length = 4 by simp [hlen]] at p1
  rw [show ((l.drop 4).take 2).length = 2 by simp [hlen]] at p2
  rw [show ((l.drop 6).take 2).length = 2 by simp [hlen]] at p3
  rw [show ((l.drop 8).take 2).length = 2 by simp [hlen]] at p4
  rw [show (l.drop 10).length = 6 by simp [hlen], List.append_nil] at p5
  have e8 : (l.drop 8).take 2 ++ l.drop 10 = l.drop 8 := by
    have h : l.drop 10 = (l.drop 8).drop 2 := by rw [List.drop_drop]
    rw [h, List.take_append_drop]
  have e6 : (l.drop 6).take 2 ++ l.drop 8 = l.drop 6 := by
    have h : l.drop 8 = (l.drop 6).drop 2 := by rw [List.drop_drop]
    rw [h, List.take_append_drop]
  have e4 : (l.drop 4).take 2 ++ l.drop 6 = l.drop 4 := by
    have h : l.drop 6 = (l.drop 4).drop 2 := by rw [List.drop_drop]
    rw [h, List.take_append_drop]
  unfold fromTextChars
  rw [p1]
  simp only [p2, p3, p4, p5]
  rw [e8, e6, e4, List.take_append_drop]

/-- C5: Round-trip law. For every well-formed identifier value `x` (however
generated), `FromString(x.ToString())` succeeds and the parsed identifier
equals `x` bitwise. (`ToString`/`FromString` delegate to the external stduuid
text conversions, which are modelled from the spec's canonical 8-4-4-4-12
lowercase form.) -/
theorem claim_roundtrip_law (u : Uuid) (h : u.WF) :
    Uuid.fromText (Uuid.toText u) = some u := by
  obtain ⟨hlen, hb⟩ := h
  unfold Uuid.fromText Uuid.toText
  rw [data_mk, fromTextChars_roundtrip u.bytes hlen hb]
  rfl

/-- Witness for `claim_roundtrip_law` at a concrete identifier. -/
theorem claim_roundtrip_law_witness :
    Uuid.WF uA ∧ Uuid.fromText (Uuid.toText uA) = some uA :=
  ⟨by decide, claim_roundtrip_law uA (by decide)⟩

/-- A successful parse means the input had the canonical 8-4-4-4-12 shape. -/
theorem canonicalShape_of_parse (cs : List Char) (bs : List Nat)
    (h : fromTextChars cs = some bs) : canonicalShape cs = true := by
  unfold fromTextChars at h
  split at h
  next g1 r1 heq1 =>
    split at h
    next g2 r2 heq2 =>
      split at h
      next g3 r3 heq3 =>
        split at h
        next g4 r4 heq4 =>
          split at h
          next g5 heq5 =>
            have e1 : hexRun 8 cs = some ('-' :: r1) := by
              simpa using hexRun_of_parseBytes 4 cs _ _ heq1
            have e2 : hexRun 4 r1 = some ('-' :: r2) := by
              simpa using hexRun_of_parseBytes 2 r1 _ _ heq2
            have e3 : hexRun 4 r2 = some ('-' :: r3) := by
              simpa using hexRun_of_parseBytes 2 r2 _ _ heq3
            have e4 : hexRun 4 r3 = some ('-' :: r4) := by
              simpa using hexRun_of_parseBytes 2 r3 _ _ heq4
            have e5 : hexRun 12 r4 = some [] := by
              simpa using hexRun_of_parseBytes 6 r4 _ _ heq5
            simp [canonicalShape, e1, e2, e3, e4, e5]
          next => simp at h
        next => simp at h
      next => simp at h
    next => simp at h
  next => simp at h

/-- C6: Parse robustness. For every input string not matching the canonical
8-4-4-4-12 hyphenated hexadecimal shape — including the empty string, strings
of wrong length, strings with non-hex characters, and strings with wrong
hyphen placement — `FromString` returns an empty optional (it has no other
failure channel: the embedding is a total function into `Option`). The parser
is modelled from the spec, the external stduuid parser not being part of the
sources. -/
theorem claim_parse_robustness (s : String) (h : canonicalShape s.data = false) :
    Uuid.fromText s = none := by
  unfold Uuid.fromText
  cases hft : fromTextChars s.data with
  | none => rfl
  | some bs => rw [canonicalShape_of_parse _ _ hft] at h; cases h

/-- Witness for `claim_parse_robustness` at concrete malformed inputs:
a non-hex short string, the empty string, a wrong-length string, and a
string with misplaced hyphens. -/
theorem claim_parse_robustness_witness :
    (canonicalShape "not-a-uuid".data = false ∧
      Uuid.fromText "not-a-uuid" = none) ∧
    (canonicalShape "".data = false ∧ Uuid.fromText "" = none) ∧
    (canonicalShape "550e8400-e29b-41d4-a716-44665544000".data = false ∧
      Uuid.fromText "550e8400-e29b-41d4-a716-44665544000" = none) ∧
    (canonicalShape "550e8400e29b-41d4-a716-4466-55440000".data = false ∧
      Uuid.fromText "550e8400e29b-41d4-a716-4466-55440000" = none) :=
  ⟨⟨by decide, claim_parse_robustness "not-a-uuid" (by decide)⟩,
   ⟨by decide, claim_parse_robustness "" (by decide)⟩,
   ⟨by decide, claim_parse_robustness "550e8400-e29b-41d4-a716-44665544000" (by decide)⟩,
   ⟨by decide, claim_parse_robustness "550e8400e29b-41d4-a716-4466-55440000" (by decide)⟩⟩

/-- C10: parsing the canonical all-zero string succeeds and yields exactly the
reserved `INVALID` sentinel, on which `IsValid()` is `false` — a successful
parse can yield the invalid/absent sentinel. -/
theorem claim_zero_parse_yields_invalid :
    Uuid.fromText "00000000-0000-0000-0000-000000000000" = some Uuid.INVALID ∧
    Uuid.isValid Uuid.INVALID = false := by decide

/-- The counter value fetched by call `n` in closed form. -/
theorem seqCounter_eq (n : Nat) : seqCounter n = (1 + n) % 4294967296 := by
  induction n with
  | zero => rfl
  | succ n ih => rw [seqCounter, ih]; omega

/-- Reading back the counter from the last four bytes of a sequential
identifier. -/
theorem toNat_mkSeqUuid (id : Nat) (h : id < 4294967296) :
    (mkSeqUuid id).toNat = id := by
  simp [mkSeqUuid, Uuid.toNat, List.foldl]
  omega

/-- `mkSeqUuid` is injective on 32-bit counter values. -/
theorem mkSeqUuid_inj (a b : Nat) (ha : a < 4294967296) (hb : b < 4294967296)
    (h : mkSeqUuid a = mkSeqUuid b) : a = b := by
  have h2 := congrArg Uuid.toNat h
  rwa [toNat_mkSeqUuid a ha, toNat_mkSeqUuid b hb] at h2

/-- Counterexample to C7 as stated: the process-wide counter is a `uint32_t`
and `fetch_add` wraps it modulo `2^32`, so call number `2^32` (0-indexed)
returns the same value as call number `0` — with `N = 2^32 + 1` calls the
results are not pairwise distinct. -/
theorem claim_sequential_generation_counterexample :
    generateSequentialAt 4294967296 = generateSequentialAt 0 ∧
    (4294967296 : Nat) ≠ 0 := by
  constructor
  · unfold generateSequentialAt
    rw [seqCounter_eq, seqCounter_eq]
  · norm_num

/-- C7 (amended): `GenerateSequential` maintains a process-wide 32-bit counter
starting at 1; call `n` returns the 128-bit value equal to the fetched counter
value `(1 + n) mod 2^32` — its low-order 32 bits encode the counter's bytes
and the remaining 96 bits are zero — and within the first `2^32` calls of one
process all results are pairwise distinct (the unbounded pairwise-distinctness
of the original claim fails at call `2^32`, see the counterexample). -/
theorem claim_sequential_generation (n i j : Nat) (hij : i < j)
    (hj : j < 4294967296) :
    (generateSequentialAt n).toNat = (1 + n) % 4294967296 ∧
    (generateSequentialAt n).toNat < 4294967296 ∧
    generateSequentialAt i ≠ generateSequentialAt j := by
  have key : ∀ m : Nat, (generateSequentialAt m).toNat = (1 + m) % 4294967296 := by
    intro m
    unfold generateSequentialAt
    rw [seqCounter_eq]
    exact toNat_mkSeqUuid _ (Nat.mod_lt _ (by norm_num))
  refine ⟨key n, ?_, ?_⟩
  · rw [key n]; exact Nat.mod_lt _ (by norm_num)
  · intro h
    unfold generateSequentialAt at h
    rw [seqCounter_eq, seqCounter_eq] at h
    have h2 := mkSeqUuid_inj _ _ (Nat.mod_lt _ (by norm_num))
      (Nat.mod_lt _ (by norm_num)) h
    omega

/-- Witness for `claim_sequential_generation` at calls 0 and 1. -/
theorem claim_sequential_generation_witness :
    (0 : Nat) < 1 ∧ (1 : Nat) < 4294967296 ∧
    ((generateSequentialAt 0).toNat = (1 + 0) % 4294967296 ∧
     (generateSequentialAt 0).toNat < 4294967296 ∧
     generateSequentialAt 0 ≠ generateSequentialAt 1) :=
  ⟨by norm_num, by norm_num,
   claim_sequential_generation 0 0 1 (by norm_num) (by norm_num)⟩

/-- C8: Deterministic generation. `GenerateFromSeed` reads no state besides
its 32-bit seed argument (its engine is constructed afresh from the seed on
every call), so any two calls on seeds with equal 32-bit value return
bit-identical identifiers; likewise `GenerateFromString` and
`GenerateFromStringHash` are functions of the argument text alone. The
engine, digest and string hash are spec-modelled (see `engineWord`,
`nameDigest`, `stdHashString`). -/
theorem claim_deterministic_generation (s1 s2 : Nat) (t : String)
    (hs : s1 % 4294967296 = s2 % 4294967296) :
    generateFromSeed s1 = generateFromSeed s2 ∧
    generateFromString t = generateFromString t ∧
    generateFromStringHash t = generateFromStringHash t := by
  refine ⟨?_, rfl, rfl⟩
  unfold generateFromSeed engineWord
  rw [hs]

/-- Witness for `claim_deterministic_generation`: two calls on seed 7 and on
the text of scenario 4 of the spec. -/
theorem claim_deterministic_generation_witness :
    (7 : Nat) % 4294967296 = 7 % 4294967296 ∧
    (generateFromSeed 7 = generateFromSeed 7 ∧
     generateFromString "MyGameWorld123" = generateFromString "MyGameWorld123" ∧
     generateFromStringHash "MyGameWorld123" = generateFromStringHash "MyGameWorld123") :=
  ⟨rfl, claim_deterministic_generation 7 7 "MyGameWorld123" rfl⟩

/-- C9: Hash-seed composition. `GenerateFromStringHash(s)` equals
`GenerateFromSeed` applied to the 32-bit truncation of the general-purpose
string hash of `s`, exactly as `src/src/Uuid.cpp` lines 91-102 compose them
(`std::hash<std::string>` itself is spec-modelled as `stdHashString`). -/
theorem claim_hash_seed_composition (s : String) :
    generateFromStringHash s = generateFromSeed (stdHashString s % 4294967296) := rfl


/-! ### Lemmas about the association-list embedding of `std::unordered_map` -/

/-- A key is absent exactly when lookup fails. -/
theorem lookupKey_eq_none_iff {κ α : Type} [DecidableEq κ] (m : List (κ × α)) (k : κ) :
    lookupKey m k = none ↔ k ∉ m.map Prod.fst := by
  induction m with
  | nil => simp [lookupKey]
  | cons p m ih =>
    obtain ⟨k1, v⟩ := p
    by_cases h : k1 = k
    · subst h
      simp [lookupKey]
    · simp [lookupKey, h, ih, Ne.symm h]

/-- A successful lookup exhibits a binding of the map. -/
theorem lookupKey_eq_some_mem {κ α : Type} [DecidableEq κ] (m : List (κ × α))
    (k : κ) (v : α) (h : lookupKey m k = some v) : (k, v) ∈ m := by
  induction m with
  | nil => simp [lookupKey] at h
  | cons p m ih =>
    obtain ⟨k1, v1⟩ := p
    by_cases hk : k1 = k
    · subst hk
      simp [lookupKey] at h
      simp [h]
    · simp only [lookupKey, if_neg hk] at h
      exact List.mem_cons_of_mem _ (ih h)

/-- Lookup succeeds exactly on present keys. -/
theorem lookupKey_isSome_iff {κ α : Type} [DecidableEq κ] (m : List (κ × α)) (k : κ) :
    (lookupKey m k).isSome = true ↔ k ∈ m.map Prod.fst := by
  constructor
  · intro h
    rcases ho : lookupKey m k with _ | v
    · rw [ho] at h; simp at h
    · exact List.mem_map.2 ⟨(k, v), lookupKey_eq_some_mem _ _ _ ho, rfl⟩
  · intro h
    rcases ho : lookupKey m k with _ | v
    · exact absurd h (by simpa using (lookupKey_eq_none_iff m k).1 ho)
    · simp

/-- `operator[]`-assignment on an absent key appends the binding. -/
theorem setVal_of_not_mem {κ α : Type} [DecidableEq κ] (m : List (κ × α)) (k : κ)
    (v : α) (h : lookupKey m k = none) : setVal m k v = m ++ [(k, v)] := by
  induction m with
  | nil => rfl
  | cons p m ih =>
    obtain ⟨k1, v1⟩ := p
    by_cases hk : k1 = k
    · subst hk
      simp [lookupKey] at h
    · simp only [lookupKey, if_neg hk] at h
      simp [setVal, hk, ih h]

/-- Erasing a key just appended to a map that did not contain it restores the
map (the rollback path of `Add`/`EmplaceAs`). -/
theorem eraseKey_append_of_not_mem {κ α : Type} [DecidableEq κ] (m : List (κ × α))
    (k : κ) (v : α) (h : lookupKey m k = none) : eraseKey (m ++ [(k, v)]) k = m := by
  induction m with
  | nil => simp [eraseKey]
  | cons p m ih =>
    obtain ⟨k1, v1⟩ := p
    by_cases hk : k1 = k
    · subst hk
      simp [lookupKey] at h
    · simp only [lookupKey, if_neg hk] at h
      simp [eraseKey, hk, ih h]

/-- `eraseKey` yields a sublist. -/
theorem eraseKey_sublist {κ α : Type} [DecidableEq κ] (m : List (κ × α)) (k : κ) :
    List.Sublist (eraseKey m k) m := by
  induction m with
  | nil => simp [eraseKey]
  | cons p m ih =>
    obtain ⟨k1, v1⟩ := p
    by_cases hk : k1 = k
    · simp only [eraseKey, if_pos hk]
      exact List.sublist_cons_self _ _
    · simp only [eraseKey, if_neg hk]
      exact List.Sublist.cons₂ _ ih

/-- `eraseFirstByVal` yields a sublist. -/
theorem eraseFirstByVal_sublist (m : List (String × Uuid)) (u : Uuid) :
    List.Sublist (eraseFirstByVal m u) m := by
  induction m with
  | nil => simp [eraseFirstByVal]
  | cons p m ih =>
    obtain ⟨n1, u1⟩ := p
    by_cases hu : u1 = u
    · simp only [eraseFirstByVal, if_pos hu]
      exact List.sublist_cons_self _ _
    · simp only [eraseFirstByVal, if_neg hu]
      exact List.Sublist.cons₂ _ ih

/-- On a map with unique keys, `eraseKey` removes exactly the bindings of the
key. -/
theorem mem_eraseKey {κ α : Type} [DecidableEq κ] (m : List (κ × α)) (k : κ)
    (p : κ × α) (hnd : (m.map Prod.fst).Nodup) :
    p ∈ eraseKey m k ↔ p ∈ m ∧ p.1 ≠ k := by
  induction m with
  | nil => simp [eraseKey]
  | cons q m ih =>
    obtain ⟨k1, v1⟩ := q
    simp only [List.map_cons, List.nodup_cons] at hnd
    obtain ⟨hk1, hnd2⟩ := hnd
    by_cases hk : k1 = k
    · subst hk
      simp only [eraseKey, if_pos rfl, List.mem_cons]
      constructor
      · intro hp
        refine ⟨Or.inr hp, fun hpk => hk1 ?_⟩
        rw [← hpk]
        exact List.mem_map.2 ⟨p, hp, rfl⟩
      · rintro ⟨hp | hp, hne⟩
        · rw [hp] at hne
          exact absurd rfl hne
        · exact hp
    · simp only [eraseKey, if_neg hk, List.mem_cons, ih hnd2]
      constructor
      · rintro (rfl | ⟨hp, hne⟩)
        · exact ⟨Or.inl rfl, fun e => hk (by rw [← e])⟩
        · exact ⟨Or.inr hp, hne⟩
      · rintro ⟨rfl | hp, hne⟩
        · exact Or.inl rfl
        · exact Or.inr ⟨hp, hne⟩

/-- On a name index with pairwise-distinct identifiers, `eraseFirstByVal`
removes exactly the bindings carrying the identifier. -/
theorem mem_eraseFirstByVal (m : List (String × Uuid)) (u : Uuid)
    (p : String × Uuid) (hnd : (m.map Prod.snd).Nodup) :
    p ∈ eraseFirstByVal m u ↔ p ∈ m ∧ p.2 ≠ u := by
  induction m with
  | nil => simp [eraseFirstByVal]
  | cons q m ih =>
    obtain ⟨n1, u1⟩ := q
    simp only [List.map_cons, List.nodup_cons] at hnd
    obtain ⟨hu1, hnd2⟩ := hnd
    by_cases hu : u1 = u
    · subst hu
      simp only [eraseFirstByVal, if_pos rfl, List.mem_cons]
      constructor
      · intro hp
        refine ⟨Or.inr hp, fun hpu => hu1 ?_⟩
        rw [← hpu]
        exact List.mem_map.2 ⟨p, hp, rfl⟩
      · rintro ⟨hp | hp, hne⟩
        · rw [hp] at hne
          exact absurd rfl hne
        · exact hp
    · simp only [eraseFirstByVal, if_neg hu, List.mem_cons, ih hnd2]
      constructor
      · rintro (rfl | ⟨hp, hne⟩)
        · exact ⟨Or.inl rfl, fun e => hu (by rw [← e])⟩
        · exact ⟨Or.inr hp, hne⟩
      · rintro ⟨rfl | hp, hne⟩
        · exact Or.inl rfl
        · exact Or.inr ⟨hp, hne⟩

/-- After erasing a key from a unique-key map, lookup of that key fails. -/
theorem lookupKey_eraseKey_self {κ α : Type} [DecidableEq κ] (m : List (κ × α))
    (k : κ) (hnd : (m.map Prod.fst).Nodup) : lookupKey (eraseKey m k) k = none := by
  rw [lookupKey_eq_none_iff]
  intro hmem
  obtain ⟨p, hp, hpk⟩ := List.mem_map.1 hmem
  rw [mem_eraseKey _ _ _ hnd] at hp
  exact hp.2 hpk

/-- A successful reverse scan exhibits a binding of the name index. -/
theorem findNameByUuid_eq_some_mem (m : List (String × Uuid)) (u : Uuid)
    (n : String) (h : findNameByUuid m u = some n) : (n, u) ∈ m := by
  induction m with
  | nil => simp [findNameByUuid] at h
  | cons p m ih =>
    obtain ⟨n1, u1⟩ := p
    by_cases hu : u1 = u
    · subst hu
      simp [findNameByUuid] at h
      simp [h]
    · simp only [findNameByUuid, if_neg hu] at h
      exact List.mem_cons_of_mem _ (ih h)

/-- The reverse scan fails exactly when no binding carries the identifier. -/
theorem findNameByUuid_eq_none_iff (m : List (String × Uuid)) (u : Uuid) :
    findNameByUuid m u = none ↔ u ∉ m.map Prod.snd := by
  induction m with
  | nil => simp [findNameByUuid]
  | cons p m ih =>
    obtain ⟨n1, u1⟩ := p
    by_cases hu : u1 = u
    · subst hu
      simp [findNameByUuid]
    · simp [findNameByUuid, hu, ih, Ne.symm hu]

/-- After `Remove(uuid)` erases the binding found by the reverse scan, lookup
of the removed name fails (the name index has unique keys). -/
theorem lookupKey_eraseFirstByVal (m : List (String × Uuid)) (u : Uuid)
    (n : String) (hnd : (m.map Prod.fst).Nodup)
    (h : findNameByUuid m u = some n) :
    lookupKey (eraseFirstByVal m u) n = none := by
  induction m with
  | nil => simp [findNameByUuid] at h
  | cons p m ih =>
    obtain ⟨n1, u1⟩ := p
    simp only [List.map_cons, List.nodup_cons] at hnd
    obtain ⟨hn1, hnd2⟩ := hnd
    by_cases hu : u1 = u
    · subst hu
      simp [findNameByUuid] at h
      simp only [eraseFirstByVal, if_pos rfl]
      rw [lookupKey_eq_none_iff]
      rw [← h]
      exact hn1
    · simp only [findNameByUuid, if_neg hu] at h
      have hne : n1 ≠ n := by
        intro e
        rw [e] at hn1
        exact hn1 (List.mem_map.2 ⟨(n, u), findNameByUuid_eq_some_mem m u n h, rfl⟩)
      simp only [eraseFirstByVal, if_neg hu, lookupKey, if_neg hne]
      exact ih hnd2 h

/-- A value outside the image leaves nothing for the filter. -/
theorem filter_key_nil {α β : Type} [DecidableEq β] (f : α → β) (b : β)
    (l : List α) (h : b ∉ l.map f) : l.filter (fun q => f q = b) = [] := by
  induction l with
  | nil => rfl
  | cons a l ih =>
    simp only [List.map_cons, List.mem_cons, not_or] at h
    obtain ⟨h1, h2⟩ := h
    have hne : f a ≠ b := fun e => h1 e.symm
    simp [List.filter_cons, hne, ih h2]

/-- On a list whose image under `f` has no duplicates, a value of the image is
hit by exactly one element. -/
theorem filter_key_one {α β : Type} [DecidableEq β] (f : α → β) (b : β)
    (l : List α) (hnd : (l.map f).Nodup) (h : b ∈ l.map f) :
    (l.filter (fun q => f q = b)).length = 1 := by
  induction l with
  | nil => simp at h
  | cons a l ih =>
    simp only [List.map_cons, List.nodup_cons] at hnd
    obtain ⟨ha, hnd2⟩ := hnd
    by_cases hab : f a = b
    · rw [← hab] at h ⊢
      simp [List.filter_cons, filter_key_nil f (f a) l ha]
    · simp only [List.map_cons, List.mem_cons] at h
      rcases h with h | h
      · exact absurd h.symm hab
      · simp [List.filter_cons, hab, ih hnd2 h]


/-! ### Characterizations of the registry operations -/

/-- `Add` on an existing name: the `runtime_error` is thrown with both indices
untouched. -/
theorem add_dup_eq {T : Type} (r : Registry T) (name : String) (uuid : Uuid)
    (item : T) (sf : Bool) (u : Uuid)
    (hn : lookupKey r.nameToUuid name = some u) :
    r.add name uuid item sf = (r, RegOutcome.dupName) := by
  unfold Registry.add tryEmplace
  rw [hn]

/-- `Add` on a fresh name whose storage step fails: rollback restores the
registry exactly. -/
theorem add_fail_eq {T : Type} (r : Registry T) (name : String) (uuid : Uuid)
    (item : T) (hn : lookupKey r.nameToUuid name = none) :
    r.add name uuid item true = (r, RegOutcome.opFail) := by
  unfold Registry.add tryEmplace
  rw [hn]
  simp only []
  rw [eraseKey_append_of_not_mem _ _ _ hn]
  simp

/-- `Add` on a fresh name, storage succeeding. -/
theorem add_ok_eq {T : Type} (r : Registry T) (name : String) (uuid : Uuid)
    (item : T) (hn : lookupKey r.nameToUuid name = none) :
    r.add name uuid item false =
      (⟨setVal r.items uuid item, r.nameToUuid ++ [(name, uuid)]⟩,
       RegOutcome.ok uuid) := by
  unfold Registry.add tryEmplace
  rw [hn]
  simp

/-- `EmplaceAs` on an existing name: thrown before any mutation. -/
theorem emplace_dup_eq {T : Type} (r : Registry T) (name : String) (uuid : Uuid)
    (ctor : Option T) (sf : Bool) (u : Uuid)
    (hn : lookupKey r.nameToUuid name = some u) :
    r.emplaceAs name uuid ctor sf = (r, RegOutcome.dupName) := by
  unfold Registry.emplaceAs tryEmplace
  rw [hn]

/-- `EmplaceAs` on a fresh name whose item constructor throws: rollback
restores the registry exactly. -/
theorem emplace_ctorfail_eq {T : Type} (r : Registry T) (name : String)
    (uuid : Uuid) (sf : Bool) (hn : lookupKey r.nameToUuid name = none) :
    r.emplaceAs name uuid none sf = (r, RegOutcome.opFail) := by
  unfold Registry.emplaceAs tryEmplace
  rw [hn]
  simp only []
  rw [eraseKey_append_of_not_mem _ _ _ hn]

/-- `EmplaceAs` on a fresh name whose storage step throws: rollback restores
the registry exactly. -/
theorem emplace_storefail_eq {T : Type} (r : Registry T) (name : String)
    (uuid : Uuid) (item : T) (hn : lookupKey r.nameToUuid name = none) :
    r.emplaceAs name uuid (some item) true = (r, RegOutcome.opFail) := by
  unfold Registry.emplaceAs tryEmplace
  rw [hn]
  simp only []
  rw [eraseKey_append_of_not_mem _ _ _ hn]
  simp

/-- `EmplaceAs` on a fresh name, construction and storage succeeding. -/
theorem emplace_ok_eq {T : Type} (r : Registry T) (name : String) (uuid : Uuid)
    (item : T) (hn : lookupKey r.nameToUuid name = none) :
    r.emplaceAs name uuid (some item) false =
      (⟨(tryEmplace r.items uuid item).1, r.nameToUuid ++ [(name, uuid)]⟩,
       RegOutcome.ok uuid) := by
  unfold Registry.emplaceAs
  unfold tryEmplace
  rw [hn]
  simp


/-! ### C1, C3: rollback atomicity and duplicate-name rejection -/

/-- C1: Rollback atomicity (I3). For every registry state and every `Add` or
`Emplace`/`EmplaceAs` call whose item-construction or item-storage step fails
(outcome `opFail`: the constructor threw, `ctor = none`, or the storage step
threw, `storeFails = true`), after the failure is surfaced both the name index
and the item index are exactly as they were before the attempt — in particular
the name index contains no entry for the attempted name and `Size()` is
unchanged. -/
theorem claim_rollback_atomicity {T : Type} (r : Registry T) (name : String)
    (uuid : Uuid) (item : T) (ctor : Option T) (sf : Bool) :
    ((r.add name uuid item sf).2 = RegOutcome.opFail →
      (r.add name uuid item sf).1 = r ∧
      (r.add name uuid item sf).1.tryGetUuid name = none ∧
      (r.add name uuid item sf).1.size = r.size) ∧
    ((r.emplaceAs name uuid ctor sf).2 = RegOutcome.opFail →
      (r.emplaceAs name uuid ctor sf).1 = r ∧
      (r.emplaceAs name uuid ctor sf).1.tryGetUuid name = none ∧
      (r.emplaceAs name uuid ctor sf).1.size = r.size) := by
  constructor
  · intro h
    cases hn : lookupKey r.nameToUuid name with
    | some u1 =>
      rw [add_dup_eq r name uuid item sf u1 hn] at h
      simp at h
    | none =>
      cases sf with
      | false =>
        rw [add_ok_eq r name uuid item hn] at h
        simp at h
      | true =>
        rw [add_fail_eq r name uuid item hn]
        exact ⟨rfl, hn, rfl⟩
  · intro h
    cases hn : lookupKey r.nameToUuid name with
    | some u1 =>
      rw [emplace_dup_eq r name uuid ctor sf u1 hn] at h
      simp at h
    | none =>
      cases ctor with
      | none =>
        rw [emplace_ctorfail_eq r name uuid sf hn]
        exact ⟨rfl, hn, rfl⟩
      | some item2 =>
        cases sf with
        | false =>
          rw [emplace_ok_eq r name uuid item2 hn] at h
          simp at h
        | true =>
          rw [emplace_storefail_eq r name uuid item2 hn]
          exact ⟨rfl, hn, rfl⟩

/-- Witness for `claim_rollback_atomicity`: a failing `Emplace` construction
and a failing `Add` storage step on the empty registry leave it empty. -/
theorem claim_rollback_atomicity_witness :
    (((Registry.empty Nat).emplaceAs "Player" uA none true).2 = RegOutcome.opFail ∧
      ((Registry.empty Nat).emplaceAs "Player" uA none true).1 = Registry.empty Nat) ∧
    (((Registry.empty Nat).add "Player" uA 0 true).2 = RegOutcome.opFail ∧
      ((Registry.empty Nat).add "Player" uA 0 true).1 = Registry.empty Nat) := by
  have h := claim_rollback_atomicity (Registry.empty Nat) "Player" uA 0 none true
  exact ⟨⟨by decide, (h.2 (by decide)).1⟩, ⟨by decide, (h.1 (by decide)).1⟩⟩

/-- C3: Duplicate-name rejection without side effects. For every registry
state in which `name` is already bound, `Add` and `Emplace`/`EmplaceAs` with
that name raise the duplicate-name error synchronously and mutate no state —
the registry (both indices, hence `Size()` and every lookup) is exactly
unchanged, and (for a consistent state) the previously stored item for that
name is still retrievable. -/
theorem claim_duplicate_name_rejection {T : Type} (r : Registry T)
    (name : String) (uuid : Uuid) (item : T) (ctor : Option T) (sf : Bool)
    (u : Uuid) (hbound : r.tryGetUuid name = some u) (hcons : r.Consistent) :
    r.add name uuid item sf = (r, RegOutcome.dupName) ∧
    r.emplaceAs name uuid ctor sf = (r, RegOutcome.dupName) ∧
    (r.tryGetByName name).isSome = true := by
  have hn : lookupKey r.nameToUuid name = some u := hbound
  refine ⟨add_dup_eq r name uuid item sf u hn,
    emplace_dup_eq r name uuid ctor sf u hn, ?_⟩
  unfold Registry.tryGetByName
  rw [hn, lookupKey_isSome_iff]
  exact hcons.2.2.2.1 u (List.mem_map.2 ⟨(name, u), lookupKey_eq_some_mem _ _ _ hn, rfl⟩)

/-- Witness for `claim_duplicate_name_rejection` on a one-entry registry. -/
theorem claim_duplicate_name_rejection_witness :
    regOne.tryGetUuid "Player" = some uA ∧ regOne.Consistent ∧
    (regOne.add "Player" uB 9 false = (regOne, RegOutcome.dupName) ∧
     regOne.emplaceAs "Player" uB (some 9) false = (regOne, RegOutcome.dupName) ∧
     (regOne.tryGetByName "Player").isSome = true) :=
  ⟨by decide, by decide,
   claim_duplicate_name_rejection regOne "Player" uB 9 (some 9) false uA
     (by decide) (by decide)⟩


/-- C4: Remove consistency. For every registry state (with the unique-key
property every `std::unordered_map` has by construction), `Remove(name)` and
`Remove(id)` return `true` exactly when a corresponding entry exists; on
success the entry is deleted from both indices, so every subsequent lookup by
the removed name or the removed identifier returns a negative result; on a
missing key they return `false` with both indices unchanged. -/
theorem claim_remove_consistency {T : Type} (r : Registry T) (name : String)
    (u : Uuid) (hnd1 : (r.items.map Prod.fst).Nodup)
    (hnd2 : (r.nameToUuid.map Prod.fst).Nodup) :
    ((r.removeByName name).2 = true ↔ (r.tryGetUuid name).isSome = true) ∧
    (r.tryGetUuid name = none → r.removeByName name = (r, false)) ∧
    (∀ u1, r.tryGetUuid name = some u1 →
      (r.removeByName name).1.tryGetUuid name = none ∧
      (r.removeByName name).1.tryGetByName name = none ∧
      (r.removeByName name).1.tryGetById u1 = none) ∧
    ((r.removeById u).2 = true ↔ (r.tryGetById u).isSome = true) ∧
    (r.tryGetById u = none → r.removeById u = (r, false)) ∧
    ((r.tryGetById u).isSome = true →
      ((r.removeById u).1.tryGetById u = none ∧
       ∀ n, r.tryGetName u = some n →
         (r.removeById u).1.tryGetUuid n = none ∧
         (r.removeById u).1.tryGetByName n = none)) := by
  refine ⟨?_, ?_, ?_, ?_, ?_, ?_⟩
  · unfold Registry.removeByName Registry.tryGetUuid
    cases hn : lookupKey r.nameToUuid name <;> simp
  · intro h
    unfold Registry.removeByName
    rw [show lookupKey r.nameToUuid name = none from h]
  · intro u1 h
    have hn : lookupKey r.nameToUuid name = some u1 := h
    have e1 : lookupKey (eraseKey r.nameToUuid name) name = none :=
      lookupKey_eraseKey_self _ _ hnd2
    have e2 : lookupKey (eraseKey r.items u1) u1 = none :=
      lookupKey_eraseKey_self _ _ hnd1
    simp only [Registry.removeByName, hn, Registry.tryGetUuid,
      Registry.tryGetByName, Registry.tryGetById, e1, e2]
    simp
  · unfold Registry.removeById Registry.tryGetById
    cases hi : lookupKey r.items u <;> simp
  · intro h
    unfold Registry.removeById
    rw [show lookupKey r.items u = none from h]
  · intro h
    rcases ho : lookupKey r.items u with _ | t
    · unfold Registry.tryGetById at h
      rw [ho] at h
      simp at h
    · have e2 : lookupKey (eraseKey r.items u) u = none :=
        lookupKey_eraseKey_self _ _ hnd1
      constructor
      · simp only [Registry.removeById, ho, Registry.tryGetById]
        exact e2
      · intro n hfn
        have hf : findNameByUuid r.nameToUuid u = some n := hfn
        have e3 : lookupKey (eraseFirstByVal r.nameToUuid u) n = none :=
          lookupKey_eraseFirstByVal _ _ _ hnd2 hf
        simp only [Registry.removeById, ho, Registry.tryGetUuid,
          Registry.tryGetByName, e3]
        simp

/-- Witness for `claim_remove_consistency` on a one-entry registry. -/
theorem claim_remove_consistency_witness :
    (regOne.items.map Prod.fst).Nodup ∧ (regOne.nameToUuid.map Prod.fst).Nodup ∧
    ((regOne.removeByName "Player").2 = true ↔
      (regOne.tryGetUuid "Player").isSome = true) :=
  ⟨by decide, by decide,
   (claim_remove_consistency regOne "Player" uA (by decide) (by decide)).1⟩


/-! ### C2: the registry bijection invariant -/

/-- The empty registry is consistent. -/
theorem consistent_empty (T : Type) : (Registry.empty T).Consistent := by
  unfold Registry.Consistent Registry.empty
  simp

/-- Inserting a fresh name bound to a fresh identifier together with the item
stored under that identifier preserves consistency (the success path of both
`Add` and `EmplaceAs`). -/
theorem consistent_insert {T : Type} (r : Registry T) (name : String)
    (uuid : Uuid) (item : T) (hc : r.Consistent)
    (hn : lookupKey r.nameToUuid name = none)
    (hfresh : lookupKey r.items uuid = none) :
    (Registry.mk (r.items ++ [(uuid, item)])
      (r.nameToUuid ++ [(name, uuid)])).Consistent := by
  have c1 := hc.1
  have c2 := hc.2.1
  have c3 := hc.2.2.1
  have c4 := hc.2.2.2.1
  have c5 := hc.2.2.2.2
  have hnn : name ∉ r.nameToUuid.map Prod.fst := (lookupKey_eq_none_iff _ _).1 hn
  have hui : uuid ∉ r.items.map Prod.fst := (lookupKey_eq_none_iff _ _).1 hfresh
  have hun : uuid ∉ r.nameToUuid.map Prod.snd := fun hm => hui (c4 uuid hm)
  unfold Registry.Consistent
  simp only [List.map_append, List.map_cons, List.map_nil]
  refine ⟨?_, ?_, ?_, ?_, ?_⟩
  · exact c1.append (List.nodup_singleton _) (fun b hb1 hb2 => by
      rw [List.mem_singleton] at hb2
      exact hnn (hb2 ▸ hb1))
  · exact c2.append (List.nodup_singleton _) (fun b hb1 hb2 => by
      rw [List.mem_singleton] at hb2
      exact hun (hb2 ▸ hb1))
  · exact c3.append (List.nodup_singleton _) (fun b hb1 hb2 => by
      rw [List.mem_singleton] at hb2
      exact hui (hb2 ▸ hb1))
  · intro w hw
    rw [List.mem_append, List.mem_singleton] at hw
    rw [List.mem_append, List.mem_singleton]
    rcases hw with hw | hw
    · exact Or.inl (c4 w hw)
    · exact Or.inr hw
  · intro w hw
    rw [List.mem_append, List.mem_singleton] at hw
    rw [List.mem_append, List.mem_singleton]
    rcases hw with hw | hw
    · exact Or.inl (c5 w hw)
    · exact Or.inr hw

/-- `Add` with a fresh identifier preserves consistency on every path. -/
theorem consistent_add {T : Type} (r : Registry T) (name : String) (uuid : Uuid)
    (item : T) (sf : Bool) (hc : r.Consistent)
    (hfresh : lookupKey r.items uuid = none) :
    (r.add name uuid item sf).1.Consistent := by
  rcases hn : lookupKey r.nameToUuid name with _ | u
  · cases sf with
    | true =>
      rw [add_fail_eq r name uuid item hn]
      exact hc
    | false =>
      rw [add_ok_eq r name uuid item hn]
      rw [show setVal r.items uuid item = r.items ++ [(uuid, item)] from
        setVal_of_not_mem _ _ _ hfresh]
      exact consistent_insert r name uuid item hc hn hfresh
  · rw [add_dup_eq r name uuid item sf u hn]
    exact hc

/-- `EmplaceAs` with a fresh identifier preserves consistency on every path. -/
theorem consistent_emplaceAs {T : Type} (r : Registry T) (name : String)
    (uuid : Uuid) (ctor : Option T) (sf : Bool) (hc : r.Consistent)
    (hfresh : lookupKey r.items uuid = none) :
    (r.emplaceAs name uuid ctor sf).1.Consistent := by
  rcases hn : lookupKey r.nameToUuid name with _ | u
  · cases ctor with
    | none =>
      rw [emplace_ctorfail_eq r name uuid sf hn]
      exact hc
    | some item =>
      cases sf with
      | true =>
        rw [emplace_storefail_eq r name uuid item hn]
        exact hc
      | false =>
        rw [emplace_ok_eq r name uuid item hn]
        rw [show (tryEmplace r.items uuid item).1 = r.items ++ [(uuid, item)] by
          unfold tryEmplace
          rw [hfresh]]
        exact consistent_insert r name uuid item hc hn hfresh
  · rw [emplace_dup_eq r name uuid ctor sf u hn]
    exact hc

/-- `Remove(name)` preserves consistency. -/
theorem consistent_removeByName {T : Type} (r : Registry T) (name : String)
    (hc : r.Consistent) : (r.removeByName name).1.Consistent := by
  rcases hn : lookupKey r.nameToUuid name with _ | u
  · unfold Registry.removeByName
    rw [hn]
    exact hc
  · have c1 := hc.1
    have c2 := hc.2.1
    have c3 := hc.2.2.1
    have c4 := hc.2.2.2.1
    have c5 := hc.2.2.2.2
    have hmem : (name, u) ∈ r.nameToUuid := lookupKey_eq_some_mem _ _ _ hn
    unfold Registry.removeByName
    rw [hn]
    unfold Registry.Consistent
    refine ⟨?_, ?_, ?_, ?_, ?_⟩
    · exact List.Nodup.sublist
        (List.Sublist.map Prod.fst (eraseKey_sublist r.nameToUuid name)) c1
    · exact List.Nodup.sublist
        (List.Sublist.map Prod.snd (eraseKey_sublist r.nameToUuid name)) c2
    · exact List.Nodup.sublist
        (List.Sublist.map Prod.fst (eraseKey_sublist r.items u)) c3
    · intro w hw
      obtain ⟨p, hp, rfl⟩ := List.mem_map.1 hw
      rw [mem_eraseKey _ _ _ c1] at hp
      obtain ⟨hpmem, hpne⟩ := hp
      have hpu : p.2 ≠ u := by
        intro e
        have hpeq : p = (name, u) :=
          List.inj_on_of_nodup_map c2 hpmem hmem (by rw [e])
        exact hpne (by rw [hpeq])
      have hw2 : p.2 ∈ r.items.map Prod.fst :=
        c4 p.2 (List.mem_map.2 ⟨p, hpmem, rfl⟩)
      obtain ⟨q, hq, hq2⟩ := List.mem_map.1 hw2
      refine List.mem_map.2 ⟨q, ?_, hq2⟩
      rw [mem_eraseKey _ _ _ c3]
      refine ⟨hq, ?_⟩
      rw [hq2]
      exact hpu
    · intro w hw
      obtain ⟨q, hq, rfl⟩ := List.mem_map.1 hw
      rw [mem_eraseKey _ _ _ c3] at hq
      obtain ⟨hqmem, hqne⟩ := hq
      have hw2 : q.1 ∈ r.nameToUuid.map Prod.snd :=
        c5 q.1 (List.mem_map.2 ⟨q, hqmem, rfl⟩)
      obtain ⟨p, hp, hp2⟩ := List.mem_map.1 hw2
      refine List.mem_map.2 ⟨p, ?_, hp2⟩
      rw [mem_eraseKey _ _ _ c1]
      refine ⟨hp, ?_⟩
      intro e
      have hpeq : p = (name, u) :=
        List.inj_on_of_nodup_map c1 hp hmem (by rw [e])
      rw [hpeq] at hp2
      exact hqne hp2.symm

/-- `Remove(id)` preserves consistency. -/
theorem consistent_removeById {T : Type} (r : Registry T) (u : Uuid)
    (hc : r.Consistent) : (r.removeById u).1.Consistent := by
  rcases ho : lookupKey r.items u with _ | t
  · unfold Registry.removeById
    rw [ho]
    exact hc
  · have c1 := hc.1
    have c2 := hc.2.1
    have c3 := hc.2.2.1
    have c4 := hc.2.2.2.1
    have c5 := hc.2.2.2.2
    unfold Registry.removeById
    rw [ho]
    unfold Registry.Consistent
    refine ⟨?_, ?_, ?_, ?_, ?_⟩
    · exact List.Nodup.sublist
        (List.Sublist.map Prod.fst (eraseFirstByVal_sublist r.nameToUuid u)) c1
    · exact List.Nodup.sublist
        (List.Sublist.map Prod.snd (eraseFirstByVal_sublist r.nameToUuid u)) c2
    · exact List.Nodup.sublist
        (List.Sublist.map Prod.fst (eraseKey_sublist r.items u)) c3
    · intro w hw
      obtain ⟨p, hp, rfl⟩ := List.mem_map.1 hw
      rw [mem_eraseFirstByVal _ _ _ c2] at hp
      obtain ⟨hpmem, hpne⟩ := hp
      have hw2 : p.2 ∈ r.items.map Prod.fst :=
        c4 p.2 (List.mem_map.2 ⟨p, hpmem, rfl⟩)
      obtain ⟨q, hq, hq2⟩ := List.mem_map.1 hw2
      refine List.mem_map.2 ⟨q, ?_, hq2⟩
      rw [mem_eraseKey _ _ _ c3]
      refine ⟨hq, ?_⟩
      rw [hq2]
      exact hpne
    · intro w hw
      obtain ⟨q, hq, rfl⟩ := List.mem_map.1 hw
      rw [mem_eraseKey _ _ _ c3] at hq
      obtain ⟨hqmem, hqne⟩ := hq
      have hw2 : q.1 ∈ r.nameToUuid.map Prod.snd :=
        c5 q.1 (List.mem_map.2 ⟨q, hqmem, rfl⟩)
      obtain ⟨p, hp, hp2⟩ := List.mem_map.1 hw2
      refine List.mem_map.2 ⟨p, ?_, hp2⟩
      rw [mem_eraseFirstByVal _ _ _ c2]
      refine ⟨hp, ?_⟩
      rw [hp2]
      exact hqne

/-- `Clear` preserves consistency. -/
theorem consistent_clear {T : Type} (r : Registry T) : r.clear.Consistent := by
  unfold Registry.clear Registry.Consistent
  simp

/-- Every state reachable with fresh generated identifiers is consistent. -/
theorem consistent_of_reachableFresh {T : Type} (r : Registry T)
    (h : ReachableFresh r) : r.Consistent := by
  induction h with
  | empty => exact consistent_empty T
  | add r name uuid item sf hr hfresh ih =>
    exact consistent_add r name uuid item sf ih hfresh
  | emplaceAs r name uuid ctor sf hr hfresh ih =>
    exact consistent_emplaceAs r name uuid ctor sf ih hfresh
  | removeById r uuid hr ih => exact consistent_removeById r uuid ih
  | removeByName r name hr ih => exact consistent_removeByName r name ih
  | clear r hr ih => exact consistent_clear r

/-- Consistency implies the claim-shaped bijection statement. -/
theorem bijection_of_consistent {T : Type} (r : Registry T)
    (hc : r.Consistent) : r.Bijection := by
  have c1 := hc.1
  have c2 := hc.2.1
  have c3 := hc.2.2.1
  have c4 := hc.2.2.2.1
  have c5 := hc.2.2.2.2
  unfold Registry.Bijection
  refine ⟨?_, ?_, ?_⟩
  · intro p hp
    exact filter_key_one Prod.fst p.1 _ c1 (List.mem_map.2 ⟨p, hp, rfl⟩)
  · intro p hp
    exact filter_key_one Prod.fst p.2 _ c3
      (c4 p.2 (List.mem_map.2 ⟨p, hp, rfl⟩))
  · intro q hq
    exact filter_key_one Prod.snd q.1 _ c2
      (c5 q.1 (List.mem_map.2 ⟨q, hq, rfl⟩))

/-- Counterexample to C2 as stated: when identifier generation returns an
identifier already live in the registry, `Add` succeeds (its
`_items[uuid] = item` overwrites the existing slot) and afterwards two names
are bound to one identifier, so the identifier in the item index no longer has
exactly one name mapping to it — the bijection invariant fails on a state
reached by two `Add` calls. -/
theorem claim_registry_bijection_counterexample :
    (((Registry.empty Nat).add "a" uA 7 false).2 = RegOutcome.ok uA) ∧
    ((((Registry.empty Nat).add "a" uA 7 false).1.add "b" uA 8 false).2 =
      RegOutcome.ok uA) ∧
    ¬ (((Registry.empty Nat).add "a" uA 7 false).1.add "b" uA 8 false).1.Bijection := by
  refine ⟨by decide, by decide, by decide⟩

/-- C2 (amended): for every sequence of `Add`, `Emplace`, `EmplaceAs`,
`Remove` and `Clear` operations in which each generated identifier handed to
an insertion is fresh (not live in the item index), at every point no two live
entries share a name, every identifier present in the name index has exactly
one corresponding entry in the item index, and every identifier in the item
index has exactly one name mapping to it. (The unrestricted claim, which also
admits insertions whose generated identifier is already live, fails: see the
counterexample.) -/
theorem claim_registry_bijection {T : Type} (r : Registry T)
    (h : ReachableFresh r) : r.Bijection :=
  bijection_of_consistent r (consistent_of_reachableFresh r h)

/-- Witness for `claim_registry_bijection` on a concrete reachable state. -/
theorem claim_registry_bijection_witness :
    ReachableFresh (((Registry.empty Nat).add "Player" uA 7 false).1) ∧
    (((Registry.empty Nat).add "Player" uA 7 false).1).Bijection := by
  have hre : ReachableFresh (((Registry.empty Nat).add "Player" uA 7 false).1) :=
    ReachableFresh.add (Registry.empty Nat) "Player" uA 7 false
      ReachableFresh.empty (by decide)
  exact ⟨hre, claim_registry_bijection _ hre⟩

end VelecsCommon
